import Mathlib

set_option maxRecDepth 8000

set_option maxHeartbeats 1000000

/-!
Verification of the FSM-modifier scripts (2024-CSAW repository).

The repository contains three Python scripts that detect finite-state-machine
constructs in Verilog text with regular-expression heuristics and insert a
"deadbeef detection" payload:

* `fsm-modifier.py` (class `FSMCaseModifier`): `_find_state_register`,
  `_find_case_blocks`, `_find_matching_endcase` (depth-counted keyword
  balancing) and `_modify_fsm`.
* `fsm-modifier-all-user-search.py` (class `FSMUserSearchModifier`):
  `modify_fsm` composed of `_add_parameters`, `_add_input_wire`,
  `_add_deadbeef_checks`, `_add_new_states`.
* `fsm-modifier_targeted file.py` (class `FSMPreciseModifier`): the same four
  helpers, with `_add_deadbeef_checks` restricted to the first
  `case\s*\(\s*state\s*\)` match and `_add_new_states` using the first
  (not last) `endcase` match.

Strings are embedded as `List Char`.  Each Python regular expression used by
the scripts is embedded as a deterministic matcher on a character-list suffix;
the patterns involved are backtracking-free in the sense that every
quantified character class in them is disjoint from the literal that follows
it, so a greedy longest-run reading is exact.  Python `\s` is the ASCII
whitespace class, `\w` is letters, digits and underscore (all inputs here are
ASCII).
-/

/-- Python `\w` (word character) for ASCII text: letter, digit or underscore. -/
def isWordChar (c : Char) : Bool := c.isAlphanum || c == '_'

/-- Python `\s`: space, tab, newline, carriage return, vertical tab, form feed. -/
def isPySpace (c : Char) : Bool :=
  c == ' ' || c == '\t' || c == '\n' || c == '\r' || c == '\x0b' || c == '\x0c'

/-- The character class `[A-Z_]` used by the label patterns. -/
def isUpperU (c : Char) : Bool := c.isUpper || c == '_'

/-- Length of the maximal run of characters satisfying `p` at the head of `s`. -/
def runLen (p : Char → Bool) : List Char → Nat
  | [] => 0
  | c :: cs => if p c then runLen p cs + 1 else 0

/-- Whether `tok` occurs literally at the head of `s`. -/
def isLitAt (s tok : List Char) : Bool := decide (s.take tok.length = tok)

/-- The dispatch-open keyword matched by `\b(case|endcase)\b`. -/
def caseTok : List Char := "case".toList

/-- The dispatch-close keyword matched by `\b(case|endcase)\b`. -/
def endcaseTok : List Char := "endcase".toList

/-- Whether `tok` occurs at the head of `s` followed by a word boundary
(next character is not a word character, or end of input), as for the
trailing `\b` in `\b(case|endcase)\b`. -/
def matchWord (s tok : List Char) : Bool :=
  isLitAt s tok &&
    (match s.drop tok.length with
     | [] => true
     | c :: _ => !isWordChar c)

/-- A token of the balancing scan in `_find_matching_endcase`. -/
inductive CTok : Type
  | kcase : CTok
  | kend : CTok
deriving DecidableEq

/-- The literal text of a scan token. -/
def ctokStr : CTok → List Char
  | CTok.kcase => caseTok
  | CTok.kend => endcaseTok

/-- `match.end()` contribution of a scan token (its length). -/
def ctokLen : CTok → Nat
  | CTok.kcase => 4
  | CTok.kend => 7

/-- Leading `\b` of `\b(case|endcase)\b`: satisfied at the start of the
searched string or when the previous character is not a word character. -/
def boundaryOk : Option Char → Bool
  | none => true
  | some c => !isWordChar c

/-- `re.search(r'\b(case|endcase)\b', s)`: leftmost occurrence of either
keyword delimited by word boundaries.  `prev` is the character before the
current position (`none` at the start of the searched string), `i` the
current absolute index.  The alternation is order-insensitive because the
two literals differ at their first character. -/
def searchCaseTok : Option Char → Nat → List Char → Option (Nat × CTok)
  | _, _, [] => none
  | prev, i, c :: cs =>
    if boundaryOk prev && matchWord (c :: cs) caseTok then some (i, CTok.kcase)
    else if boundaryOk prev && matchWord (c :: cs) endcaseTok then some (i, CTok.kend)
    else searchCaseTok (some c) (i + 1) cs

/-- The loop of `FSMCaseModifier._find_matching_endcase` (fsm-modifier.py
lines 97-118): while `case_count > 0 and pos < len(content)`, search
`\b(case|endcase)\b` in `content[pos:]`; `None` match returns `None`;
`case` increments the counter, `endcase` decrements it; `pos += match.end()`;
return `pos` when the counter reaches 0.  `fuel` bounds the iteration count
(the position strictly increases each turn, so `length + 1` iterations always
suffice, proved below); the outer `none` marks fuel exhaustion, the inner
`Option Nat` is the function's result. -/
def fmeGo (s : List Char) : Int → Nat → Nat → Option (Option Nat)
  | _, _, 0 => none
  | count, pos, fuel + 1 =>
    if 0 < count ∧ pos < s.length then
      match searchCaseTok none 0 (s.drop pos) with
      | none => some none
      | some (j, t) =>
        let count' : Int := match t with
          | CTok.kcase => count + 1
          | CTok.kend => count - 1
        let pos' := pos + j + ctokLen t
        if count' = 0 then some (some pos') else fmeGo s count' pos' fuel
    else some none

/-- `FSMCaseModifier._find_matching_endcase(content)`: the balancing scan
starting with `case_count = 1` and `pos = 0`. -/
def find_matching_endcase (s : List Char) : Option Nat :=
  (fmeGo s 1 0 (s.length + 1)).getD none

/-!
## Generic leftmost search and `finditer`

A matcher takes the suffix of the text at a candidate position and returns
`some (length, capture)` when the pattern matches there.  `searchGo` scans
candidate positions left to right (Python `re.search`'s leftmost rule);
`finditerGo` resumes after each match end (`re.finditer`'s non-overlapping
rule).  All matchers below consume at least one character, so `length + 1`
fuel rounds suffice for `finditer`.
-/

/-- Leftmost match of matcher `m` in the text, scanning from absolute
index `i`; returns `(start, end, capture)`. -/
def searchGo {α : Type} (m : List Char → Option (Nat × α)) :
    Nat → List Char → Option (Nat × Nat × α)
  | _, [] => none
  | i, c :: cs =>
    match m (c :: cs) with
    | some (len, a) => some (i, i + len, a)
    | none => searchGo m (i + 1) cs

/-- `re.search`: leftmost match of `m` in `s` as `(start, end, capture)`. -/
def searchM {α : Type} (m : List Char → Option (Nat × α)) (s : List Char) :
    Option (Nat × Nat × α) :=
  searchGo m 0 s

/-- `re.finditer` loop: all non-overlapping matches from absolute index `i`,
where `t` is the suffix of the full text at `i`. -/
def finditerGo {α : Type} (m : List Char → Option (Nat × α)) :
    Nat → List Char → Nat → List (Nat × Nat × α)
  | _, _, 0 => []
  | i, t, fuel + 1 =>
    match searchGo m i t with
    | none => []
    | some (st, en, a) => (st, en, a) :: finditerGo m en (t.drop (en - i)) fuel

/-- `re.finditer(m, s)` as a list of `(start, end, capture)`. -/
def finditerM {α : Type} (m : List Char → Option (Nat × α)) (s : List Char) :
    List (Nat × Nat × α) :=
  finditerGo m 0 s (s.length + 1)

/-- Wrap a capture-free matcher for the generic search. -/
def mU (m : List Char → Option Nat) : List Char → Option (Nat × Unit) :=
  fun s => (m s).map (fun n => (n, ()))

/-- `str.rfind(tok)`: index of the last occurrence of `tok` in `s`
(`none` for Python's `-1`). -/
def rfindGo (tok : List Char) : Nat → List Char → Option Nat → Option Nat
  | _, [], acc => acc
  | i, c :: cs, acc =>
    rfindGo tok (i + 1) cs (if isLitAt (c :: cs) tok then some i else acc)

/-- `s.rfind(tok)` (last occurrence, fully contained in `s`). -/
def rfindSub (s tok : List Char) : Option Nat := rfindGo tok 0 s none

/-- Python string splice `s[:p] + t + s[p:]` (positions past the end clamp,
as in Python). -/
def insertAt (s : List Char) (p : Nat) (t : List Char) : List Char :=
  s.take p ++ t ++ s.drop p

/-- The scripts' repeated mutation loop: walk a list of planned insertions
`(original_position, text)`, inserting each at `original_position + offset`
into the current buffer and adding the text's length to `offset`. -/
def applyEdits (s : List Char) (es : List (Nat × List Char)) : List Char :=
  (es.foldl (fun acc e => (insertAt acc.1 (e.1 + acc.2) e.2, acc.2 + e.2.length))
    (s, 0)).1

/-!
## The individual regular expressions

Each matcher documents the Python pattern it embeds.  In every pattern the
character class under a `*`/`+` is disjoint from the literal that follows it,
so the greedy maximal-run reading used here is exactly Python's semantics.
-/

/-- `case\s*\(\s*(\w+)\s*\)` — the dispatch-open form with a captured
identifier (used by `_add_deadbeef_checks` and `_add_new_states`, and the
common shape of the four `case_state_patterns`).  Returns
`(match length, captured identifier)`.  The identifier run is maximal, which
matches `\w+` here because the following `\s*\)` begins with a non-word
character. -/
def mCaseIdent (s : List Char) : Option (Nat × List Char) :=
  if isLitAt s caseTok then
    let s1 := s.drop 4
    let a := runLen isPySpace s1
    match s1.drop a with
    | '(' :: s2 =>
      let b := runLen isPySpace s2
      let s3 := s2.drop b
      let w := runLen isWordChar s3
      if w = 0 then none
      else
        let s4 := s3.drop w
        let c := runLen isPySpace s4
        match s4.drop c with
        | ')' :: _ => some (4 + a + 1 + b + w + c + 1, s3.take w)
        | _ => none
    | _ => none
  else none

/-- `case\s*\(\s*state\s*\)` (`case_state_patterns[0]`).  Equivalent to
`mCaseIdent` with the captured identifier exactly `state`: the identifier run
is maximal, so the literal `state` of the pattern matches iff the run is
`state`. -/
def mCaseP1 (s : List Char) : Option (Nat × Unit) :=
  match mCaseIdent s with
  | some (len, w) => if w = "state".toList then some (len, ()) else none
  | none => none

/-- `case\s*\(\s*\w+_state\s*\)` (`case_state_patterns[1]`).  Matches iff the
maximal identifier run ends in `_state` preceded by at least one word
character; the capture is the whole identifier, which is also what
`_find_state_register`'s inner extraction `\(\s*(\w+(?:_state|_STATE)?)\s*\)`
returns for this form. -/
def mCaseP2 (s : List Char) : Option (Nat × List Char) :=
  match mCaseIdent s with
  | some (len, w) =>
    if 7 ≤ w.length ∧ w.drop (w.length - 6) = "_state".toList then some (len, w)
    else none
  | none => none

/-- `case\s*\(\s*current_state\s*\)` (`case_state_patterns[2]`). -/
def mCaseP3 (s : List Char) : Option (Nat × Unit) :=
  match mCaseIdent s with
  | some (len, w) => if w = "current_state".toList then some (len, ()) else none
  | none => none

/-- `case\s*\(\s*next_state\s*\)` (`case_state_patterns[3]`). -/
def mCaseP4 (s : List Char) : Option (Nat × Unit) :=
  match mCaseIdent s with
  | some (len, w) => if w = "next_state".toList then some (len, ()) else none
  | none => none

/-- `\s*parameter\s+[A-Z_]+\s*=` — the anchor of `_add_parameters`.
Group 1 spans the whole pattern, so the insertion position
`match.start(1)` is the match start. -/
def mParam (s : List Char) : Option Nat :=
  let a := runLen isPySpace s
  let s1 := s.drop a
  if isLitAt s1 "parameter".toList then
    let s2 := s1.drop 9
    let b := runLen isPySpace s2
    if b = 0 then none
    else
      let s3 := s2.drop b
      let c := runLen isUpperU s3
      if c = 0 then none
      else
        let s4 := s3.drop c
        let d := runLen isPySpace s4
        match s4.drop d with
        | '=' :: _ => some (a + 9 + b + c + d + 1)
        | _ => none
  else none

/-- Index of the first `,` or `;` in `s`. -/
def firstSepIdx : List Char → Option Nat
  | [] => none
  | c :: cs =>
    if c == ',' || c == ';' then some 0
    else (firstSepIdx cs).map (· + 1)

/-- `\s*input\s+[^,;]+[,;]` — the anchor of `_add_input_wire`.  After the
literal `input` there must be at least one whitespace character, then at
least one further character before the first `,`/`;` (the `[^,;]+` block may
itself contain whitespace, so the requirement is exactly: next character is
whitespace and the first separator after `input` is at relative index `≥ 2`).
Group 1 spans the whole pattern; the insertion position `match.end(1)` is the
match end, one past the separator. -/
def mInput (s : List Char) : Option Nat :=
  let a := runLen isPySpace s
  let s1 := s.drop a
  if isLitAt s1 "input".toList then
    let s2 := s1.drop 5
    match s2 with
    | c :: _ =>
      if isPySpace c then
        match firstSepIdx s2 with
        | some q => if 2 ≤ q then some (a + 5 + q + 1) else none
        | none => none
      else none
    | [] => none
  else none

/-- `([A-Z_]+)\s*:\s*begin` — the state-label pattern of
`_add_deadbeef_checks`.  Returns `(match length, label)`; the label run is
maximal, matching the greedy `[A-Z_]+` (the following `\s*:` begins with a
character outside `[A-Z_]`). -/
def mLabel (s : List Char) : Option (Nat × List Char) :=
  let w := runLen isUpperU s
  if w = 0 then none
  else
    let s1 := s.drop w
    let a := runLen isPySpace s1
    match s1.drop a with
    | ':' :: s2 =>
      let b := runLen isPySpace s2
      if isLitAt (s2.drop b) "begin".toList then some (w + a + 1 + b + 5, s.take w)
      else none
    | _ => none

/-- Index of the last `'\n'` in `s`. -/
def lastNlIdx (s : List Char) : Option Nat := rfindSub s ['\n']

/-- `\s*endcase\s*$` with `re.MULTILINE` — the anchor of `_add_new_states`.
The trailing greedy `\s*` consumes up to the end of input, or backtracks so
that `$` holds, i.e. to just before the last newline inside the trailing
whitespace run; with no newline there and input remaining, the pattern fails
at this start. -/
def mEndcaseML (s : List Char) : Option Nat :=
  let a := runLen isPySpace s
  let s1 := s.drop a
  if isLitAt s1 endcaseTok then
    let s2 := s1.drop 7
    let r := runLen isPySpace s2
    if s2.length ≤ r then some (a + 7 + r)
    else
      match lastNlIdx (s2.take r) with
      | some p => some (a + 7 + p)
      | none => none
  else none

/-- `module\s+\w+\s*\(` — the anchor used by `_modify_fsm` in
fsm-modifier.py for the parameter and input-wire insertions. -/
def mModule (s : List Char) : Option Nat :=
  if isLitAt s "module".toList then
    let s1 := s.drop 6
    let a := runLen isPySpace s1
    if a = 0 then none
    else
      let s2 := s1.drop a
      let w := runLen isWordChar s2
      if w = 0 then none
      else
        let s3 := s2.drop w
        let b := runLen isPySpace s3
        match s3.drop b with
        | '(' :: _ => some (6 + a + w + b + 1)
        | _ => none
  else none

/-- `(NAME)\s*:` — the fixed `state_label_patterns` of fsm-modifier.py
(`(IDLE)\s*:` etc.); `match.end()` is one past the colon. -/
def mNamedLabel (name : List Char) (s : List Char) : Option Nat :=
  if isLitAt s name then
    let s1 := s.drop name.length
    let a := runLen isPySpace s1
    match s1.drop a with
    | ':' :: _ => some (name.length + a + 1)
    | _ => none
  else none

/-- `{state_reg}\s*<=` — the first next-state assignment searched by
`_modify_fsm` inside a state block (the register name interpolated literally
into the pattern). -/
def mAssign (reg : List Char) (s : List Char) : Option Nat :=
  if isLitAt s reg then
    let s1 := s.drop reg.length
    let a := runLen isPySpace s1
    if isLitAt (s1.drop a) "<=".toList then some (reg.length + a + 2)
    else none
  else none

/-!
## `FSMUserSearchModifier` / `FSMPreciseModifier` insertion helpers

The four helpers of fsm-modifier-all-user-search.py (lines 88-169); the
`_add_parameters` and `_add_input_wire` of fsm-modifier_targeted file.py are
byte-identical to the user-search ones and are shared.  The payload texts are
the scripts' literals, byte for byte.
-/

/-- The fixed parameter block inserted by `_add_parameters`
(user-search lines 92-94 and targeted lines 51-53, identical). -/
def us_param_insert : List Char :=
  ("    // Added deadbeef detection states\n    parameter DEADBEEF_DETECT = 4'd10,\n    parameter SPECIAL_IDLE    = 4'd11,\n\n").toList

/-- `_add_parameters`: insert the fixed parameter block at the start of the
first `\s*parameter\s+[A-Z_]+\s*=` match; identity when the anchor is
absent. -/
def add_parameters (s : List Char) : List Char :=
  match searchM (mU mParam) s with
  | some (st, _, _) => s.take st ++ us_param_insert ++ s.drop st
  | none => s

/-- The fixed input-wire line inserted by `_add_input_wire`. -/
def us_wire_insert : List Char :=
  ("\n    input wire [31:0] data_in,  // Input to check for deadbeef").toList

/-- `_add_input_wire`: insert the wire text at the end of the first
`\s*input\s+[^,;]+[,;]` match; identity when the anchor is absent. -/
def add_input_wire (s : List Char) : List Char :=
  match searchM (mU mInput) s with
  | some (_, en, _) => s.take en ++ us_wire_insert ++ s.drop en
  | none => s

/-- The two label names excluded by the per-state guard pass. -/
def deadbeef_name : List Char := "DEADBEEF_DETECT".toList

/-- The second excluded label name. -/
def special_name : List Char := "SPECIAL_IDLE".toList

/-- The guard text `check_insert` of `_add_deadbeef_checks`
(user-search lines 128-132), parameterised by the captured state variable. -/
def us_check_insert (v : List Char) : List Char :=
  ("\n                // Check for deadbeef value\n                if (data_in == 32'hDEADBEEF)\n                    ").toList
  ++ v ++ (" <= DEADBEEF_DETECT;\n                else ").toList

/-- The planned guard insertions of `_add_deadbeef_checks` (user-search
lines 108-136): for every `case\s*\(\s*(\w+)\s*\)` match in the original
content, and every `([A-Z_]+)\s*:\s*begin` match in the original content
after that case match whose label is not one of the two injected names, one
insertion of the guard text at (case start + relative block end), in loop
order.  All positions are computed against the unmodified input, exactly as
in the script. -/
def guard_plan (s : List Char) : List (Nat × List Char) :=
  ((finditerM mCaseIdent s).map (fun cm =>
    (finditerM mLabel (s.drop cm.2.1)).filterMap (fun bm =>
      if bm.2.2 = deadbeef_name ∨ bm.2.2 = special_name then none
      else some (cm.2.1 + bm.2.1, us_check_insert cm.2.2)))).flatten

/-- `_add_deadbeef_checks`: the offset-tracking insertion loop over the
planned guards. -/
def add_deadbeef_checks (s : List Char) : List Char :=
  applyEdits s (guard_plan s)

/-- The new-state block text `new_states` of `_add_new_states` (user-search
lines 152-165), parameterised by the captured state variable. -/
def us_new_states (v : List Char) : List Char :=
  ("\n            DEADBEEF_DETECT: begin\n                if (data_in == 32'hDEADBEEF)\n                    ").toList
  ++ v ++ (" <= SPECIAL_IDLE;\n                else\n                    ").toList
  ++ v ++ (" <= IDLE;\n            end\n\n            SPECIAL_IDLE: begin\n                // Do nothing, stay in special idle state\n                ").toList
  ++ v ++ (" <= SPECIAL_IDLE;\n            end\n\n").toList

/-- `_add_new_states` (user-search lines 138-169): take the last
`\s*endcase\s*$` match; `rfind('case')` before its start; search
`case\s*\(\s*(\w+)\s*\)` in the slice between them; insert the new-state
blocks at the endcase match start.  Identity when any of the three lookups
fails. -/
def add_new_states (s : List Char) : List Char :=
  match (finditerM (mU mEndcaseML) s).getLast? with
  | none => s
  | some (lst, _, _) =>
    match rfindSub (s.take lst) caseTok with
    | none => s
    | some cp =>
      match searchM mCaseIdent ((s.take lst).drop cp) with
      | none => s
      | some (_, _, v) => s.take lst ++ us_new_states v ++ s.drop lst

/-- `FSMUserSearchModifier.modify_fsm` (lines 57-86), string part: the four
helpers applied in sequence.  (The surrounding file I/O — backup rename and
write — is unconditional on this path and not modelled here.) -/
def modify_fsm_pure (s : List Char) : List Char :=
  add_new_states (add_deadbeef_checks (add_input_wire (add_parameters s)))

/-- The guard text of the targeted variant (`FSMPreciseModifier`, lines
86-90): the user-search template with the state variable fixed to `state`. -/
def p_check_insert : List Char :=
  ("\n                // Check for deadbeef value\n                if (data_in == 32'hDEADBEEF)\n                    state <= DEADBEEF_DETECT;\n                else ").toList

/-- `FSMPreciseModifier._add_deadbeef_checks` (targeted lines 67-94): only
the first `case\s*\(\s*state\s*\)` match is used; guards are inserted after
every retained `([A-Z_]+)\s*:\s*begin` in the original content after it,
with the same offset-tracking loop (`offset` starts at `case_start` and
`pos = offset + block.end()`, which equals the plan-position form used
here). -/
def p_add_deadbeef_checks (s : List Char) : List Char :=
  match searchM mCaseP1 s with
  | none => s
  | some (_, cs, _) =>
    applyEdits s ((finditerM mLabel (s.drop cs)).filterMap (fun bm =>
      if bm.2.2 = deadbeef_name ∨ bm.2.2 = special_name then none
      else some (cs + bm.2.1, p_check_insert)))

/-- The new-state text of the targeted variant (lines 103-116): the
user-search template with `state` fixed. -/
def p_new_states : List Char :=
  ("\n            DEADBEEF_DETECT: begin\n                if (data_in == 32'hDEADBEEF)\n                    state <= SPECIAL_IDLE;\n                else\n                    state <= IDLE;\n            end\n\n            SPECIAL_IDLE: begin\n                // Do nothing, stay in special idle state\n                state <= SPECIAL_IDLE;\n            end\n\n").toList

/-- `FSMPreciseModifier._add_new_states` (targeted lines 96-120): insert the
fixed new-state text at the start of the first `\s*endcase\s*$` match;
identity when absent. -/
def p_add_new_states (s : List Char) : List Char :=
  match searchM (mU mEndcaseML) s with
  | none => s
  | some (st, _, _) => s.take st ++ p_new_states ++ s.drop st

/-- `FSMPreciseModifier.modify_fsm` (targeted lines 17-45): reads the file,
unconditionally renames it to the `.v.bak` backup, applies the four helpers
and writes the result.  There is no detection step.  The Boolean component
records that the backup rename is performed on this path (always `true`;
only an I/O exception avoids it). -/
def p_modify_fsm (s : List Char) : List Char × Bool :=
  (p_add_new_states (p_add_deadbeef_checks (add_input_wire (add_parameters s))), true)

/-!
## `FSMCaseModifier` (fsm-modifier.py): detector, case blocks, `_modify_fsm`
-/

/-- `FSMCaseModifier._find_state_register` (lines 66-76): try the four
`case_state_patterns` in order; on the first pattern with a match, the inner
extraction `\(\s*(\w+(?:_state|_STATE)?)\s*\)` on the matched text yields the
full identifier inside the parentheses (the greedy `\w+` absorbs it whole). -/
def find_state_register (s : List Char) : Option (List Char) :=
  match searchM mCaseP1 s with
  | some _ => some ("state".toList)
  | none =>
    match searchM mCaseP2 s with
    | some (_, _, w) => some w
    | none =>
      match searchM mCaseP3 s with
      | some _ => some ("current_state".toList)
      | none =>
        match searchM mCaseP4 s with
        | some _ => some ("next_state".toList)
        | none => none

/-- Whether any of the four dispatch-statement patterns occurs in `s`
(the detector's recognition condition). -/
def contains_dispatch_pattern (s : List Char) : Bool :=
  (searchM mCaseP1 s).isSome || (searchM mCaseP2 s).isSome
    || (searchM mCaseP3 s).isSome || (searchM mCaseP4 s).isSome

/-- The candidate dispatch starts enumerated by `_find_case_blocks`
(lines 82-83): for each of the four patterns in order, all `finditer` match
starts. -/
def case_pattern_starts (s : List Char) : List Nat :=
  (finditerM mCaseP1 s).map (fun m => m.1) ++ (finditerM mCaseP2 s).map (fun m => m.1)
    ++ (finditerM mCaseP3 s).map (fun m => m.1) ++ (finditerM mCaseP4 s).map (fun m => m.1)

/-- `FSMCaseModifier._find_case_blocks` (lines 78-95): for each candidate
start, run `_find_matching_endcase` on `content[start:]`; keep
`(start, start + end, content[start:start + end])` when it succeeds.  Note
the slice handed to the locator begins at the `case` keyword itself. -/
def find_case_blocks (s : List Char) : List (Nat × Nat × List Char) :=
  (case_pattern_starts s).filterMap (fun st =>
    match find_matching_endcase (s.drop st) with
    | some e => some (st, st + e, (s.drop st).take e)
    | none => none)

/-- The hard-coded label literals behind `state_label_patterns`
(`(IDLE)\s*:`, `(START)\s*:`, `(INIT)\s*:`, `(WAIT)\s*:`). -/
def state_label_patterns : List (List Char) :=
  ["IDLE".toList, "START".toList, "INIT".toList, "WAIT".toList]

/-- The parameter block of `_modify_fsm` (lines 127-131): the two values are
`len(self.state_label_patterns) + 1` and `+ 2` — the length of the fixed
four-element pattern list, not a property of the input file. -/
def cm_param_insert : List Char :=
  ("\n    // Added deadbeef detection states\n    parameter DEADBEEF_DETECT_STATE = ").toList
  ++ Nat.toDigits 10 (state_label_patterns.length + 1)
  ++ (";\n    parameter SPECIAL_IDLE_STATE = ").toList
  ++ Nat.toDigits 10 (state_label_patterns.length + 2)
  ++ (";\n").toList

/-- The input-wire text of `_modify_fsm` (lines 139-141). -/
def cm_input_insert : List Char :=
  ("\n    input wire [31:0] data_in,  // Input to check for deadbeef\n").toList

/-- The new-state blocks of `_modify_fsm` (lines 148-162), parameterised by
the state register name. -/
def cm_deadbeef_states (reg : List Char) : List Char :=
  ("\n            \n            DEADBEEF_DETECT_STATE: begin\n                if (data_in == 32'hDEADBEEF) begin\n                    ").toList
  ++ reg ++ (" <= SPECIAL_IDLE_STATE;\n                end else begin\n                    ").toList
  ++ reg ++ (" <= IDLE;\n                end\n            end\n            \n            SPECIAL_IDLE_STATE: begin\n                // Do nothing, stay in special idle state\n                ").toList
  ++ reg ++ (" <= SPECIAL_IDLE_STATE;\n            end\n").toList

/-- The per-state guard text of `_modify_fsm` (lines 175-178). -/
def cm_check (reg : List Char) : List Char :=
  ("\n                if (data_in == 32'hDEADBEEF) begin\n                    ").toList
  ++ reg ++ (" <= DEADBEEF_DETECT_STATE;\n                end else ").toList

/-- One iteration of `_modify_fsm`'s loop over `case_blocks` (lines
125-185), acting on the pair (current buffer, offset).  The module match is
computed once on the current buffer and reused for both the parameter
insertion (at its start) and the input-wire insertion (at its — by then
stale — end).  The new-state insertion position uses
`case_content.rfind('endcase')`; Python's `-1` on a failed `rfind` turns the
position into `start + offset - 1`, a negative-index splice when that is
negative (this branch is unreachable for blocks produced by
`_find_case_blocks`, whose contents end with `endcase`).  The guard pass
searches `{reg}\s*<=` in the slice `modified[start+offset+label_end :
end+offset]` of the current buffer and inserts the guard text at the found
assignment's start. -/
def cm_block_step (reg : List Char) (acc : List Char × Nat) (blk : Nat × Nat × List Char) :
    List Char × Nat :=
  let start := blk.1
  let endp := blk.2.1
  let cc := blk.2.2
  let mm := searchM (mU mModule) acc.1
  let a1 : List Char × Nat :=
    match mm with
    | some (mst, _, _) => (insertAt acc.1 mst cm_param_insert, acc.2 + cm_param_insert.length)
    | none => acc
  let a2 : List Char × Nat :=
    match mm with
    | some (_, men, _) => (insertAt a1.1 men cm_input_insert, a1.2 + cm_input_insert.length)
    | none => a1
  let dpos : Nat :=
    match rfindSub cc endcaseTok with
    | some r => start + a2.2 + r
    | none => if start + a2.2 = 0 then a2.1.length - 1 else start + a2.2 - 1
  let a3 : List Char × Nat :=
    (insertAt a2.1 dpos (cm_deadbeef_states reg), a2.2 + (cm_deadbeef_states reg).length)
  state_label_patterns.foldl (fun acc2 pat =>
    (finditerM (mU (mNamedLabel pat)) cc).foldl (fun acc3 sm =>
      let sbs := start + acc3.2 + sm.2.1
      let seg := (acc3.1.drop sbs).take (endp + acc3.2 - sbs)
      match searchM (mU (mAssign reg)) seg with
      | none => acc3
      | some (ast, _, _) =>
        (insertAt acc3.1 (sbs + ast) (cm_check reg), acc3.2 + (cm_check reg).length)) acc2) a3

/-- `FSMCaseModifier._modify_fsm` (lines 120-187): fold the per-block step
over the located case blocks, starting from the original content with
offset 0. -/
def modify_fsm_blocks (s : List Char) (blocks : List (Nat × Nat × List Char))
    (reg : List Char) : List Char :=
  (blocks.foldl (cm_block_step reg) (s, 0)).1

/-- `FSMCaseModifier.detect_and_modify_fsm` (lines 25-64), string part:
`none` when no state register or no case block is found (the script then
returns `False` before the backup rename and the write), otherwise the
mutated buffer (backup and write happen only on this branch). -/
def detect_and_modify_fsm (s : List Char) : Option (List Char) :=
  match find_state_register s with
  | none => none
  | some reg =>
    match find_case_blocks s with
    | [] => none
    | blocks => some (modify_fsm_blocks s blocks reg)

/-!
## Insertion counting for the user-search pipeline

Each count mirrors the branch structure of the corresponding helper: one
insertion when its anchor matches, none otherwise; the guard pass contributes
one insertion per planned guard.
-/

/-- Number of insertions `_add_parameters` performs on `s`. -/
def param_insert_count (s : List Char) : Nat :=
  if (searchM (mU mParam) s).isSome then 1 else 0

/-- Number of insertions `_add_input_wire` performs on `s`. -/
def input_insert_count (s : List Char) : Nat :=
  if (searchM (mU mInput) s).isSome then 1 else 0

/-- Number of guard insertions `_add_deadbeef_checks` performs on `s`. -/
def guard_insert_count (s : List Char) : Nat := (guard_plan s).length

/-- Number of insertions `_add_new_states` performs on `s` (one exactly when
all three of its lookups succeed). -/
def new_states_insert_count (s : List Char) : Nat :=
  match (finditerM (mU mEndcaseML) s).getLast? with
  | none => 0
  | some (lst, _, _) =>
    match rfindSub (s.take lst) caseTok with
    | none => 0
    | some cp => if (searchM mCaseIdent ((s.take lst).drop cp)).isSome then 1 else 0

/-- Total number of insertions performed by `modify_fsm` on `s`: each
helper's count taken on the intermediate buffer it actually receives. -/
def modify_insert_count (s : List Char) : Nat :=
  let s1 := add_parameters s
  let s2 := add_input_wire s1
  let s3 := add_deadbeef_checks s2
  param_insert_count s + input_insert_count s1 + guard_insert_count s2
    + new_states_insert_count s3

/-- The number of state labels of the input, in the sense of the scripts: the
retained `([A-Z_]+)\s*:\s*begin` occurrences after a dispatch-open match,
excluding the two injected names (one per planned guard on the original
buffer). -/
def num_state_labels (s : List Char) : Nat := (guard_plan s).length

/-!
## Splicing a sorted plan

`splice` inserts each planned text at its original-buffer position directly,
by splitting the buffer; it is the transparent form of what the scripts'
offset-tracking loop computes when the planned positions are ascending
(proved below).
-/

/-- Insert each `(position, text)` of the plan at its position of the
original buffer; `q` is the number of original characters already emitted
(`s` is the original buffer's suffix from `q`), so an edit at original
position `p` splits the suffix at `p - q`. -/
def spliceFrom (q : Nat) (s : List Char) : List (Nat × List Char) → List Char
  | [] => s
  | (p, t) :: es => s.take (p - q) ++ t ++ spliceFrom p (s.drop (p - q)) es

/-- Insert each `(position, text)` of the plan at its position of the
original buffer. -/
def splice (s : List Char) (es : List (Nat × List Char)) : List Char :=
  spliceFrom 0 s es

/-!
## Concrete example inputs

All example texts are small Verilog-like sources exercising the scripts'
patterns; the numeric facts asserted about them in the theorems below were
cross-checked against the scripts' behaviour.
-/

/-- Nested-dispatch input for the block locator, starting immediately after
the outer dispatch-open token: the inner `endcase` ends at offset 71, the
outer one at offset 89. -/
def c1_nested_input : List Char :=
  (" (state)\n    IDLE : begin\n      case (sub)\n        B : x;\n      endcase\n    end\n  endcase\nrest").toList

/-- A canonical FSM source with both anchors and two state labels. -/
def ex_fsm : List Char :=
  ("parameter IDLE = 0;\nparameter RUN = 1;\ninput clk;\ncase (state)\n  IDLE : begin\n    state <= RUN;\n  end\n  RUN : begin\n    state <= IDLE;\n  end\nendcase\n").toList

/-- `ex_guard` split so that the first two parts end right after a retained
label's `begin`. -/
def gpart1 : List Char := ("case (state)\n  IDLE : begin").toList

/-- Second part of `ex_guard`, ending after the second label's `begin`. -/
def gpart2 : List Char := ("\n    state <= RUN;\n  end\n  RUN : begin").toList

/-- Tail of `ex_guard`, containing a block labelled with an injected name. -/
def gpart3 : List Char :=
  ("\n    state <= IDLE;\n  end\n  DEADBEEF_DETECT : begin\n    state <= IDLE;\n  end\nendcase\n").toList

/-- Single-dispatch input with labels `IDLE`, `RUN` and an already-injected
`DEADBEEF_DETECT` block. -/
def ex_guard : List Char := gpart1 ++ gpart2 ++ gpart3

/-- A dispatch block whose only labels are the two injected names. -/
def ex_injected_only : List Char :=
  ("case (state)\n  DEADBEEF_DETECT : begin\n    state <= SPECIAL_IDLE;\n  end\n  SPECIAL_IDLE : begin\n    state <= SPECIAL_IDLE;\n  end\nendcase\n").toList

/-- A dispatch block with one label but neither the parameter nor the input
anchor. -/
def ex_no_anchors : List Char :=
  ("case (state)\n  IDLE : begin\n    x <= 1;\n  end\nendcase\n").toList

/-- One state label; highest used encoding value 0. -/
def ex_one_label : List Char :=
  ("parameter IDLE = 0;\ncase (state)\n  IDLE : begin\n    state <= IDLE;\n  end\nendcase\n").toList

/-- Three state labels. -/
def ex_three_labels : List Char :=
  ("parameter IDLE = 0;\ncase (state)\n  IDLE : begin\n    state <= RUN;\n  end\n  RUN : begin\n    state <= DONE;\n  end\n  DONE : begin\n    state <= IDLE;\n  end\nendcase\n").toList

/-- Text with no dispatch-statement pattern, but with an input declaration. -/
def ex_no_fsm : List Char := ("input clk;\nassign y = x;\n").toList

/-- A truncated dispatch statement: its block is never closed. -/
def ex_truncated : List Char := ("case (state)\n  IDLE : begin\n  end\n").toList

/-- An FSM source missing only the parameter anchor. -/
def ex_no_param : List Char :=
  ("input clk;\ncase (state)\n  IDLE : begin\n    state <= IDLE;\n  end\nendcase\n").toList

/-- Text with none of the helpers' anchors. -/
def ex_plain : List Char := ("nothing to see here\n").toList

/-- Input for the fsm-modifier.py guard pass: a detectable dispatch block
(with the extra trailing `endcase` its off-by-one block locator needs)
containing a hard-coded label `IDLE` whose block starts with a statement
before its state assignment, and a label `RUN` outside the hard-coded
pattern list. -/
def ex_guard_cm : List Char :=
  ("module m (\ninput clk;\ncase (state)\n  IDLE : begin\n    y = 1;\n    state <= RUN;\n  end\n  RUN : begin\n    state <= IDLE;\n  end\nendcase\nendcase\n").toList

/-- The fsm-modifier.py pipeline output on `ex_guard_cm`. -/
def ex_guard_cm_out : List Char := (detect_and_modify_fsm ex_guard_cm).getD []

/-!
## Lemmas about the balancing scan
-/

/-- A literal match is contained in the text and equals its prefix. -/
theorem isLitAt_spec {s tok : List Char} (h : isLitAt s tok = true) :
    s.take tok.length = tok ∧ tok.length ≤ s.length := by
  have h1 : s.take tok.length = tok := of_decide_eq_true h
  refine ⟨h1, ?_⟩
  have h2 : (s.take tok.length).length = tok.length := by rw [h1]
  rw [List.length_take] at h2
  omega

/-- Soundness of the keyword search: a reported match lies at or after the
scan index, fits inside the text, and is a boundary-delimited occurrence of
the reported token. -/
theorem searchCaseTok_sound :
    ∀ (s : List Char) (prev : Option Char) (i j : Nat) (t : CTok),
      searchCaseTok prev i s = some (j, t) →
      i ≤ j ∧ j - i + ctokLen t ≤ s.length ∧ matchWord (s.drop (j - i)) (ctokStr t) = true := by
  intro s
  induction s with
  | nil => intro prev i j t h; simp [searchCaseTok] at h
  | cons c cs ih =>
    intro prev i j t h
    rw [searchCaseTok] at h
    cases h1 : boundaryOk prev && matchWord (c :: cs) caseTok with
    | true =>
      rw [h1, if_pos rfl] at h
      obtain ⟨hj, ht⟩ : j = i ∧ t = CTok.kcase := by
        cases h; exact ⟨rfl, rfl⟩
      subst hj; subst ht
      rw [Bool.and_eq_true] at h1
      have hm : matchWord (c :: cs) caseTok = true := h1.2
      have hm2 := hm
      rw [matchWord, Bool.and_eq_true] at hm2
      have hlit : isLitAt (c :: cs) caseTok = true := hm2.1
      have hlen := (isLitAt_spec hlit).2
      simp only [Nat.sub_self, List.drop_zero]
      exact ⟨Nat.le_refl _, by simpa [ctokLen, caseTok] using hlen, hm⟩
    | false =>
      rw [h1] at h
      simp only [Bool.false_eq_true, if_false] at h
      cases h2 : boundaryOk prev && matchWord (c :: cs) endcaseTok with
      | true =>
        rw [h2, if_pos rfl] at h
        obtain ⟨hj, ht⟩ : j = i ∧ t = CTok.kend := by
          cases h; exact ⟨rfl, rfl⟩
        subst hj; subst ht
        rw [Bool.and_eq_true] at h2
        have hm : matchWord (c :: cs) endcaseTok = true := h2.2
        have hm2 := hm
        rw [matchWord, Bool.and_eq_true] at hm2
        have hlit : isLitAt (c :: cs) endcaseTok = true := hm2.1
        have hlen := (isLitAt_spec hlit).2
        simp only [Nat.sub_self, List.drop_zero]
        exact ⟨Nat.le_refl _, by simpa [ctokLen, endcaseTok] using hlen, hm⟩
      | false =>
        rw [h2] at h
        simp only [Bool.false_eq_true, if_false] at h
        obtain ⟨hle, hfit, hmw⟩ := ih (some c) (i + 1) j t h
        obtain ⟨k, hk⟩ := Nat.exists_eq_add_of_le hle
        subst hk
        have hji : i + 1 + k - i = k + 1 := by omega
        have hji' : i + 1 + k - (i + 1) = k := by omega
        rw [hji'] at hfit hmw
        rw [hji]
        refine ⟨by omega, ?_, ?_⟩
        · simp only [List.length_cons]; omega
        · simpa using hmw

/-- Every successful balancing scan ends immediately after a
boundary-delimited `endcase` occurrence at or after the start position. -/
theorem fmeGo_some_endcase (s : List Char) :
    ∀ (fuel : Nat) (count : Int) (pos n : Nat),
      fmeGo s count pos fuel = some (some n) →
      ∃ m, pos ≤ m ∧ n = m + 7 ∧ matchWord (s.drop m) endcaseTok = true := by
  intro fuel
  induction fuel with
  | zero => intro count pos n h; simp [fmeGo] at h
  | succ fuel ih =>
    intro count pos n h
    rw [fmeGo] at h
    by_cases hg : 0 < count ∧ pos < s.length
    · rw [if_pos hg] at h
      cases hs : searchCaseTok none 0 (s.drop pos) with
      | none => rw [hs] at h; exact absurd h (by simp)
      | some jt =>
        obtain ⟨j, t⟩ := jt
        rw [hs] at h
        obtain ⟨-, hfit, hmw⟩ := searchCaseTok_sound (s.drop pos) none 0 j t hs
        simp only [Nat.sub_zero, List.drop_drop] at hfit hmw
        cases t with
        | kcase =>
          have hne : ¬ ((count + 1 : Int) = 0) := by omega
          simp only [ctokLen, if_neg hne] at h
          obtain ⟨m, hm1, hm2, hm3⟩ := ih (count + 1) (pos + j + 4) n h
          exact ⟨m, by omega, hm2, hm3⟩
        | kend =>
          by_cases hz : (count - 1 : Int) = 0
          · simp only [ctokLen, if_pos hz] at h
            have hn : n = pos + j + 7 := by cases h; rfl
            refine ⟨pos + j, by omega, by omega, ?_⟩
            simpa [ctokStr] using hmw
          · simp only [ctokLen, if_neg hz] at h
            obtain ⟨m, hm1, hm2, hm3⟩ := ih (count - 1) (pos + j + 7) n h
            exact ⟨m, by omega, hm2, hm3⟩
    · rw [if_neg hg] at h
      exact absurd h (by simp)

/-- The fuel `length + 1 - pos` always suffices: with that much fuel the scan
never reports fuel exhaustion, because every iteration either returns or
advances the position by at least the matched token's length. -/
theorem fmeGo_fuel (s : List Char) :
    ∀ (fuel : Nat) (count : Int) (pos : Nat),
      s.length - pos < fuel → fmeGo s count pos fuel ≠ none := by
  intro fuel
  induction fuel with
  | zero => intro count pos h; omega
  | succ fuel ih =>
    intro count pos h
    rw [fmeGo]
    by_cases hg : 0 < count ∧ pos < s.length
    · rw [if_pos hg]
      cases hs : searchCaseTok none 0 (s.drop pos) with
      | none => simp
      | some jt =>
        obtain ⟨j, t⟩ := jt
        cases t with
        | kcase =>
          by_cases hz : (count + 1 : Int) = 0
          · simp only [ctokLen, if_pos hz]; simp
          · simp only [ctokLen, if_neg hz]
            apply ih
            omega
        | kend =>
          by_cases hz : (count - 1 : Int) = 0
          · simp only [ctokLen, if_pos hz]; simp
          · simp only [ctokLen, if_neg hz]
            apply ih
            omega
    · rw [if_neg hg]; simp

/-- C1: for every input text (taken from the position immediately after the
dispatch-open token) the block locator's balancing scan, with its counter
initialised to 1, incremented at `case` and decremented at `endcase`, returns
— whenever it returns a position — the position immediately after a
dispatch-close token (general part); and on an input whose dispatch block
contains a nested dispatch block it returns the position after the outer
`endcase` (offset 82, result 89), not after the inner one (offset 64,
position 71). -/
theorem block_locator_balancing_and_nesting :
    (∀ (s : List Char) (n : Nat), find_matching_endcase s = some n →
        ∃ m, n = m + 7 ∧ matchWord (s.drop m) endcaseTok = true) ∧
    (find_matching_endcase c1_nested_input = some 89 ∧
      matchWord (c1_nested_input.drop 82) endcaseTok = true ∧
      matchWord (c1_nested_input.drop 64) endcaseTok = true ∧
      find_matching_endcase c1_nested_input ≠ some (64 + 7)) := by
  constructor
  · intro s n h
    rw [find_matching_endcase] at h
    cases hf : fmeGo s 1 0 (s.length + 1) with
    | none => rw [hf] at h; simp at h
    | some r =>
      rw [hf] at h
      simp at h
      subst h
      obtain ⟨m, -, hm2, hm3⟩ := fmeGo_some_endcase s (s.length + 1) 1 0 n hf
      exact ⟨m, hm2, hm3⟩
  · refine ⟨by decide, by decide, by decide, by decide⟩

/-- Witness for the general part of C1 at the nested example. -/
theorem block_locator_balancing_and_nesting_witness :
    ∃ m, (89 : Nat) = m + 7 ∧ matchWord (c1_nested_input.drop m) endcaseTok = true :=
  block_locator_balancing_and_nesting.1 c1_nested_input 89 (by decide)

/-- C9: the block-end search terminates on every input: a successful keyword
search has a token of positive length at or after the scan position (so the
scan position strictly increases), and with fuel exceeding the remaining
length the scan loop never runs out of fuel — in particular the
`length + 1` fuel used by `find_matching_endcase` always suffices. -/
theorem block_locator_scan_terminates :
    (∀ (s : List Char) (prev : Option Char) (i j : Nat) (t : CTok),
        searchCaseTok prev i s = some (j, t) → 0 < ctokLen t ∧ i ≤ j) ∧
    (∀ (s : List Char) (count : Int) (pos fuel : Nat),
        s.length - pos < fuel → fmeGo s count pos fuel ≠ none) ∧
    (∀ s : List Char, fmeGo s 1 0 (s.length + 1) ≠ none) := by
  refine ⟨?_, ?_, ?_⟩
  · intro s prev i j t h
    obtain ⟨h1, -, -⟩ := searchCaseTok_sound s prev i j t h
    exact ⟨by cases t <;> simp [ctokLen], h1⟩
  · intro s count pos fuel h
    exact fmeGo_fuel s fuel count pos h
  · intro s
    exact fmeGo_fuel s (s.length + 1) 1 0 (by omega)

/-- Witness for C9's fuel bound at a concrete input. -/
theorem block_locator_scan_terminates_witness :
    fmeGo ("endcase").toList 1 0 8 ≠ none :=
  block_locator_scan_terminates.2.1 ("endcase").toList 1 0 8 (by decide)

/-- C8: when the balancing scan fails on every candidate dispatch start (the
counter never reaches 0 before the input is exhausted), `_find_case_blocks`
collects no block and `detect_and_modify_fsm` reports failure (`none`): the
script then returns `False` before the backup rename and the write, so the
file is never patched from a partial match. -/
theorem locate_failed_no_patch :
    ∀ s : List Char,
      (∀ st ∈ case_pattern_starts s, find_matching_endcase (s.drop st) = none) →
      find_case_blocks s = [] ∧ detect_and_modify_fsm s = none := by
  intro s h
  have hb : find_case_blocks s = [] := by
    rw [find_case_blocks]
    rw [List.filterMap_eq_nil_iff]
    intro st hst
    simp [h st hst]
  refine ⟨hb, ?_⟩
  rw [detect_and_modify_fsm]
  cases find_state_register s with
  | none => rfl
  | some reg => simp [hb]

/-- Witness for C8 at a truncated dispatch statement. -/
theorem locate_failed_no_patch_witness :
    find_case_blocks ex_truncated = [] ∧ detect_and_modify_fsm ex_truncated = none :=
  locate_failed_no_patch ex_truncated (by decide)

/-- A splice never deletes: the original buffer is a sublist of the result. -/
theorem sublist_insertAt (s : List Char) (p : Nat) (t : List Char) :
    s.Sublist (insertAt s p t) := by
  rw [insertAt, List.append_assoc]
  conv_lhs => rw [← List.take_append_drop p s]
  exact (List.Sublist.refl _).append (List.sublist_append_right t (s.drop p))

/-- Folding a buffer through steps that each preserve the buffer as a
sublist preserves it as a sublist. -/
theorem sublist_foldl {β : Type} (f : (List Char × Nat) → β → (List Char × Nat))
    (hf : ∀ (acc : List Char × Nat) (b : β), acc.1.Sublist ((f acc b).1)) :
    ∀ (l : List β) (acc : List Char × Nat), acc.1.Sublist ((l.foldl f acc).1) := by
  intro l
  induction l with
  | nil => intro acc; exact List.Sublist.refl _
  | cons b l ih =>
    intro acc
    exact (hf acc b).trans (ih (f acc b))

/-- The offset-tracking loop only inserts. -/
theorem sublist_applyEdits (s : List Char) (es : List (Nat × List Char)) :
    s.Sublist (applyEdits s es) := by
  rw [applyEdits]
  exact sublist_foldl _ (fun acc e => sublist_insertAt acc.1 (e.1 + acc.2) e.2) es (s, 0)

/-- `_add_parameters` only inserts. -/
theorem sublist_add_parameters (s : List Char) : s.Sublist (add_parameters s) := by
  rw [add_parameters]
  split
  · exact sublist_insertAt s _ us_param_insert
  · exact List.Sublist.refl s

/-- `_add_input_wire` only inserts. -/
theorem sublist_add_input_wire (s : List Char) : s.Sublist (add_input_wire s) := by
  rw [add_input_wire]
  split
  · exact sublist_insertAt s _ us_wire_insert
  · exact List.Sublist.refl s

/-- `_add_deadbeef_checks` only inserts. -/
theorem sublist_add_deadbeef_checks (s : List Char) : s.Sublist (add_deadbeef_checks s) :=
  sublist_applyEdits s (guard_plan s)

/-- `_add_new_states` only inserts. -/
theorem sublist_add_new_states (s : List Char) : s.Sublist (add_new_states s) := by
  rw [add_new_states]
  split
  · exact List.Sublist.refl s
  · split
    · exact List.Sublist.refl s
    · split
      · exact List.Sublist.refl s
      · exact sublist_insertAt s _ _

/-- The targeted `_add_deadbeef_checks` only inserts. -/
theorem sublist_p_add_deadbeef_checks (s : List Char) : s.Sublist (p_add_deadbeef_checks s) := by
  rw [p_add_deadbeef_checks]
  split
  · exact List.Sublist.refl s
  · exact sublist_applyEdits s _

/-- The targeted `_add_new_states` only inserts. -/
theorem sublist_p_add_new_states (s : List Char) : s.Sublist (p_add_new_states s) := by
  rw [p_add_new_states]
  split
  · exact List.Sublist.refl s
  · exact sublist_insertAt s _ p_new_states

/-- One `_modify_fsm` block iteration only inserts. -/
theorem sublist_cm_block_step (reg : List Char) (acc : List Char × Nat)
    (blk : Nat × Nat × List Char) : acc.1.Sublist ((cm_block_step reg acc blk).1) := by
  rw [cm_block_step]
  cases hm : searchM (mU mModule) acc.1 with
  | none =>
    simp only [hm]
    refine List.Sublist.trans ?_ (sublist_foldl _ ?_ _ _)
    · exact sublist_insertAt acc.1 _ _
    · intro acc2 pat
      refine sublist_foldl _ ?_ _ _
      intro acc3 sm
      split
      · exact List.Sublist.refl _
      · exact sublist_insertAt acc3.1 _ _
  | some mr =>
    obtain ⟨mst, men, u⟩ := mr
    simp only [hm]
    refine List.Sublist.trans ?_ (sublist_foldl _ ?_ _ _)
    · exact ((sublist_insertAt acc.1 mst cm_param_insert).trans
        (sublist_insertAt _ men cm_input_insert)).trans
        (sublist_insertAt _ _ _)
    · intro acc2 pat
      refine sublist_foldl _ ?_ _ _
      intro acc3 sm
      split
      · exact List.Sublist.refl _
      · exact sublist_insertAt acc3.1 _ _

/-- C3: every mutation path is purely insertive — the original buffer occurs,
in order, as a sublist of the mutated buffer, for the user-search pipeline,
the targeted pipeline, and `_modify_fsm` of fsm-modifier.py. -/
theorem mutation_purely_insertive :
    (∀ s : List Char, s.Sublist (modify_fsm_pure s)) ∧
    (∀ s : List Char, s.Sublist ((p_modify_fsm s).1)) ∧
    (∀ (s : List Char) (blocks : List (Nat × Nat × List Char)) (reg : List Char),
        s.Sublist (modify_fsm_blocks s blocks reg)) := by
  refine ⟨?_, ?_, ?_⟩
  · intro s
    exact (((sublist_add_parameters s).trans
      (sublist_add_input_wire _)).trans
      (sublist_add_deadbeef_checks _)).trans
      (sublist_add_new_states _)
  · intro s
    exact (((sublist_add_parameters s).trans
      (sublist_add_input_wire _)).trans
      (sublist_p_add_deadbeef_checks _)).trans
      (sublist_p_add_new_states _)
  · intro s blocks reg
    exact sublist_foldl _ (fun acc blk => sublist_cm_block_step reg acc blk) blocks (s, 0)

/-- Splicing into a buffer with a fixed prefix, at positions past the
prefix, splices into the suffix. -/
theorem insertAt_append (a m t : List Char) (p : Nat) (h : a.length ≤ p) :
    insertAt (a ++ m) p t = a ++ insertAt m (p - a.length) t := by
  rw [insertAt, insertAt, List.take_append_eq_append_take, List.drop_append_eq_append_drop,
    List.take_of_length_le h, List.drop_eq_nil_of_le h]
  simp [List.append_assoc]

/-- The offset loop over a buffer with an untouched prefix `a`: when every
planned position (plus the running offset) stays at or past the prefix, the
loop acts on the suffix, with positions re-based by the prefix length. -/
theorem applyGo_front :
    ∀ (es : List (Nat × List Char)) (a m : List Char) (δ : Nat),
      (∀ e ∈ es, a.length ≤ e.1 + δ) →
      (es.foldl (fun acc e => (insertAt acc.1 (e.1 + acc.2) e.2, acc.2 + e.2.length))
          (a ++ m, δ)).1
        = a ++ (es.foldl
            (fun acc e => (insertAt acc.1 (e.1 + acc.2 - a.length) e.2, acc.2 + e.2.length))
            (m, δ)).1 := by
  intro es
  induction es with
  | nil => intro a m δ h; rfl
  | cons e es ih =>
    intro a m δ h
    obtain ⟨p, t⟩ := e
    simp only [List.foldl_cons]
    rw [insertAt_append a m t (p + δ) (h (p, t) (List.mem_cons_self _ _))]
    exact ih a (insertAt m (p + δ - a.length) t) (δ + t.length)
      (fun e he => le_trans (h e (List.mem_cons_of_mem _ he)) (by omega))

/-- Re-basing the loop: subtracting a common lower bound `p` from every
planned position and `j` from the prefix-adjusted insertion index gives the
plain offset loop on the re-based plan. -/
theorem applyGo_rebase :
    ∀ (es : List (Nat × List Char)) (m : List Char) (p j δ : Nat),
      (∀ e ∈ es, p ≤ e.1) →
      (es.foldl (fun acc e => (insertAt acc.1 (e.1 + acc.2 - (p + j)) e.2, acc.2 + e.2.length))
          (m, j + δ)).1
        = ((es.map (fun e => (e.1 - p, e.2))).foldl
            (fun acc e => (insertAt acc.1 (e.1 + acc.2) e.2, acc.2 + e.2.length))
            (m, δ)).1 := by
  intro es
  induction es with
  | nil => intro m p j δ h; rfl
  | cons e es ih =>
    intro m p j δ h
    obtain ⟨p1, t1⟩ := e
    have hp1 : p ≤ p1 := h (p1, t1) (List.mem_cons_self _ _)
    simp only [List.foldl_cons, List.map_cons]
    have harith : p1 + (j + δ) - (p + j) = p1 - p + δ := by omega
    have harith2 : j + δ + t1.length = j + (δ + t1.length) := by omega
    rw [harith, harith2]
    exact ih (insertAt m (p1 - p + δ) t1) p j (δ + t1.length)
      (fun e he => h e (List.mem_cons_of_mem _ he))

/-- Re-basing a splice whose positions all lie at or past `p` subtracts `p`
from the splice origin and every position. -/
theorem spliceFrom_rebase :
    ∀ (es : List (Nat × List Char)) (q p : Nat) (s : List Char),
      p ≤ q → (∀ e ∈ es, p ≤ e.1) →
      spliceFrom q s es = spliceFrom (q - p) s (es.map (fun e => (e.1 - p, e.2))) := by
  intro es
  induction es with
  | nil => intro q p s hq h; rfl
  | cons e es ih =>
    intro q p s hq h
    obtain ⟨p1, t1⟩ := e
    have hp1 : p ≤ p1 := h (p1, t1) (List.mem_cons_self _ _)
    simp only [spliceFrom, List.map_cons]
    have harith : p1 - p - (q - p) = p1 - q := by omega
    rw [harith]
    rw [ih p1 p (s.drop (p1 - q)) hp1 (fun e he => h e (List.mem_cons_of_mem _ he))]

/-- Offset correctness, by induction on a length bound (the recursive call
acts on a re-based copy of the tail, which structural induction on the list
does not cover). -/
theorem applyEdits_eq_splice_aux :
    ∀ (n : Nat) (es : List (Nat × List Char)) (s : List Char), es.length ≤ n →
      es.Pairwise (fun a b => a.1 ≤ b.1) → (∀ e ∈ es, e.1 ≤ s.length) →
      applyEdits s es = splice s es := by
  intro n
  induction n with
  | zero =>
    intro es s hn hs hb
    cases es with
    | nil => rfl
    | cons e es => simp at hn
  | succ n ih =>
    intro es s hn hs hb
    cases es with
    | nil => rfl
    | cons e es =>
      obtain ⟨p, t⟩ := e
      obtain ⟨hhead, htail⟩ := List.pairwise_cons.mp hs
      have hple : p ≤ s.length := hb (p, t) (List.mem_cons_self _ _)
      have hlen_a : (s.take p ++ t).length = p + t.length := by
        rw [List.length_append, List.length_take]
        omega
      rw [applyEdits]
      simp only [List.foldl_cons]
      have hsplit : insertAt s (p + 0) t = (s.take p ++ t) ++ s.drop p := by
        rw [insertAt]
        simp [List.append_assoc]
      rw [hsplit]
      have hpre : (∀ e ∈ es, (s.take p ++ t).length ≤ e.1 + (0 + t.length)) := by
        intro e he
        have := hhead e he
        omega
      rw [applyGo_front es (s.take p ++ t) (s.drop p) (0 + t.length) hpre]
      have hrebase := applyGo_rebase es (s.drop p) p t.length 0 (fun e he => hhead e he)
      rw [hlen_a]
      have hj : (0 + t.length) = t.length + 0 := by omega
      rw [hj, hrebase]
      have hIH : applyEdits (s.drop p) (es.map (fun e => (e.1 - p, e.2)))
          = splice (s.drop p) (es.map (fun e => (e.1 - p, e.2))) := by
        apply ih
        · rw [List.length_map]
          simpa using hn
        · rw [List.pairwise_map]
          exact htail.imp (fun hab => by omega)
        · intro e he
          obtain ⟨e0, he0, heq⟩ := List.mem_map.mp he
          have := hb e0 (List.mem_cons_of_mem _ he0)
          subst heq
          rw [List.length_drop]
          simp only []
          omega
      rw [applyEdits] at hIH
      rw [hIH]
      rw [splice, splice, spliceFrom]
      simp only [Nat.sub_zero]
      rw [spliceFrom_rebase es p p (s.drop p) (Nat.le_refl p) (fun e he => hhead e he)]
      simp [List.append_assoc]

/-- Offset correctness of the scripts' insertion loop: when the planned
positions are ascending and lie inside the buffer, the offset-tracking loop
computes exactly the direct splice of every planned text at its original
position. -/
theorem applyEdits_eq_splice (es : List (Nat × List Char)) (s : List Char)
    (hs : es.Pairwise (fun a b => a.1 ≤ b.1)) (hb : ∀ e ∈ es, e.1 ≤ s.length) :
    applyEdits s es = splice s es :=
  applyEdits_eq_splice_aux es.length es s (Nat.le_refl _) hs hb

/-- C5 (amended), per variant.  User-search/targeted `_add_deadbeef_checks`
(general part): the guard pass equals the direct splice of its plan whenever
the planned positions are ascending and in range — each planned edit sits at
`case start + label-block end`, i.e. immediately after that label's `begin`,
excluding the two injected labels, and carries the guard text that moves the
state register to the trap state on the sentinel value and otherwise falls
through; concretely, on a single-dispatch input with labels `IDLE`, `RUN`
and an already-injected `DEADBEEF_DETECT` block, the guard text is inserted
exactly after the two retained labels' `begin` tokens and not after the
injected label's.  The fsm-modifier.py guard pass (`_modify_fsm` lines
168-185) behaves differently: it only considers the four hard-coded labels
and inserts at the first state-register assignment found in an
offset-shifted window — concretely on `ex_guard_cm` the pipeline patches the
file, both label blocks survive verbatim (no guard after either `begin`),
and the single guard text lands inside the injected `SPECIAL_IDLE_STATE`
block, before its self-loop assignment. -/
theorem guard_insertion_per_variant :
    (∀ s : List Char, (guard_plan s).Pairwise (fun a b => a.1 ≤ b.1) →
        (∀ e ∈ guard_plan s, e.1 ≤ s.length) →
        add_deadbeef_checks s = splice s (guard_plan s)) ∧
    (ex_guard = gpart1 ++ gpart2 ++ gpart3 ∧
      add_deadbeef_checks ex_guard
        = gpart1 ++ us_check_insert ("state").toList ++ gpart2
          ++ us_check_insert ("state").toList ++ gpart3) ∧
    ((detect_and_modify_fsm ex_guard_cm).isSome = true ∧
      rfindSub ex_guard_cm_out
        (("IDLE : begin\n    y = 1;\n    state <= RUN;\n  end").toList) ≠ none ∧
      rfindSub ex_guard_cm_out
        (("RUN : begin\n    state <= IDLE;\n  end").toList) ≠ none ∧
      rfindSub ex_guard_cm_out
        (("// Do nothing, stay in special idle state\n                ").toList
          ++ cm_check ("state").toList
          ++ ("state <= SPECIAL_IDLE_STATE;").toList) ≠ none) := by
  refine ⟨?_, ⟨rfl, by decide⟩, by decide, by decide, by decide, by decide⟩
  intro s h1 h2
  rw [add_deadbeef_checks]
  exact applyEdits_eq_splice (guard_plan s) s h1 h2

/-- Witness for the general part of C5's amended statement at the concrete
guard example. -/
theorem guard_insertion_per_variant_witness :
    add_deadbeef_checks ex_guard = splice ex_guard (guard_plan ex_guard) :=
  guard_insertion_per_variant.1 ex_guard (by decide) (by decide)

/-- C5 counterexample to the claim as stated: `ex_guard_cm`'s dispatch block
contains the state labels `IDLE` and `RUN` (neither injected), the
fsm-modifier.py pipeline does patch the file, yet no guard conditional is
inserted immediately after either label's `begin` — both blocks survive
byte-for-byte, so no guard sits anywhere inside them. -/
theorem guard_after_begin_counterexample :
    (finditerM mLabel ex_guard_cm).map (fun m => m.2.2)
        = [("IDLE").toList, ("RUN").toList] ∧
      (searchM mCaseP1 ex_guard_cm).isSome = true ∧
      (detect_and_modify_fsm ex_guard_cm).isSome = true ∧
      rfindSub ex_guard_cm_out
        (("IDLE : begin").toList ++ cm_check ("state").toList) = none ∧
      rfindSub ex_guard_cm_out
        (("RUN : begin").toList ++ cm_check ("state").toList) = none ∧
      rfindSub ex_guard_cm_out
        (("IDLE : begin\n    y = 1;\n    state <= RUN;\n  end\n  RUN : begin\n    state <= IDLE;\n  end").toList) ≠ none := by
  refine ⟨by decide, by decide, by decide, by decide, by decide, by decide⟩

/-- C10: each insertion helper is the identity when its anchor pattern is
absent (no error is raised), so an input missing one anchor still receives
the other insertions — a silently partial patch, shown concretely on an
input with no parameter declaration. -/
theorem missing_anchor_is_identity :
    (∀ s : List Char, searchM (mU mParam) s = none → add_parameters s = s) ∧
    (∀ s : List Char, searchM (mU mInput) s = none → add_input_wire s = s) ∧
    (∀ s : List Char, finditerM (mU mEndcaseML) s = [] → add_new_states s = s) ∧
    (add_parameters ex_no_param = ex_no_param ∧ modify_fsm_pure ex_no_param ≠ ex_no_param) := by
  refine ⟨?_, ?_, ?_, by decide, by decide⟩
  · intro s h
    rw [add_parameters, h]
  · intro s h
    rw [add_input_wire, h]
  · intro s h
    rw [add_new_states, h]
    rfl

/-- Witness for C10's identity parts on anchor-free text. -/
theorem missing_anchor_is_identity_witness :
    add_parameters ex_plain = ex_plain ∧ add_input_wire ex_plain = ex_plain
      ∧ add_new_states ex_plain = ex_plain :=
  ⟨missing_anchor_is_identity.1 ex_plain (by decide),
   missing_anchor_is_identity.2.1 ex_plain (by decide),
   missing_anchor_is_identity.2.2.1 ex_plain (by decide)⟩

/-- C7 (amended): for `FSMCaseModifier`, input with no dispatch-statement
pattern makes the detector return `None` and the pipeline report `none`
before any backup or write; the targeted `FSMPreciseModifier.modify_fsm`,
however, performs its backup rename unconditionally (second part — it has no
detection step at all). -/
theorem no_dispatch_detector_untouched :
    (∀ s : List Char, contains_dispatch_pattern s = false → detect_and_modify_fsm s = none) ∧
    (∀ s : List Char, (p_modify_fsm s).2 = true) := by
  constructor
  · intro s h
    rw [contains_dispatch_pattern] at h
    rw [detect_and_modify_fsm, find_state_register]
    cases hx1 : searchM mCaseP1 s with
    | some r => rw [hx1] at h; simp at h
    | none =>
      cases hx2 : searchM mCaseP2 s with
      | some r => rw [hx1, hx2] at h; simp at h
      | none =>
        cases hx3 : searchM mCaseP3 s with
        | some r => rw [hx1, hx2, hx3] at h; simp at h
        | none =>
          cases hx4 : searchM mCaseP4 s with
          | some r => rw [hx1, hx2, hx3, hx4] at h; simp at h
          | none => rfl
  · intro s
    rfl

/-- Witness for C7's amended detector statement. -/
theorem no_dispatch_detector_untouched_witness :
    detect_and_modify_fsm ex_no_fsm = none :=
  no_dispatch_detector_untouched.1 ex_no_fsm (by decide)

/-- C7 counterexample to the claim as stated: on input with no
dispatch-statement pattern, the targeted variant still creates the backup
(its rename is unconditional) and still modifies the content (the input-wire
anchor is present), so the file is not left untouched. -/
theorem no_dispatch_untouched_counterexample :
    contains_dispatch_pattern ex_no_fsm = false ∧ (p_modify_fsm ex_no_fsm).2 = true ∧
      (p_modify_fsm ex_no_fsm).1 ≠ ex_no_fsm := by
  refine ⟨by decide, rfl, by decide⟩

/-- C4 (amended): the inserted state constants are fixed text — whenever
`_add_parameters` inserts at all, it inserts the constant block declaring
`4'd10`/`4'd11` (user-search and targeted variants), and the
fsm-modifier.py parameter block declares `5`/`6`, the length of the
hard-coded four-pattern list plus one and two — none of them derived from
the input file's state labels. -/
theorem injected_values_fixed :
    (∀ s : List Char, add_parameters s = s ∨
        ∃ p, add_parameters s = s.take p ++ us_param_insert ++ s.drop p) ∧
    ((rfindSub us_param_insert ("4'd10").toList).isSome = true ∧
      (rfindSub us_param_insert ("4'd11").toList).isSome = true ∧
      (rfindSub cm_param_insert ("DEADBEEF_DETECT_STATE = 5;").toList).isSome = true ∧
      (rfindSub cm_param_insert ("SPECIAL_IDLE_STATE = 6;").toList).isSome = true) := by
  refine ⟨?_, by decide, by decide, by decide, by decide⟩
  intro s
  rw [add_parameters]
  cases searchM (mU mParam) s with
  | none => exact Or.inl rfl
  | some r => exact Or.inr ⟨r.1, rfl⟩

/-- C4 counterexample to the claim as stated: two inputs with different
numbers of state labels (one and three) receive the byte-identical parameter
insertion — the declared values are not derived from the file's state
count. -/
theorem injected_values_counterexample :
    num_state_labels ex_one_label = 1 ∧ num_state_labels ex_three_labels = 3 ∧
      add_parameters ex_one_label = us_param_insert ++ ex_one_label ∧
      add_parameters ex_three_labels = us_param_insert ++ ex_three_labels := by
  refine ⟨by decide, by decide, by decide, by decide⟩

/-- C2 counterexample to idempotence as stated: applying the user-search
patch twice to the canonical FSM source yields a buffer different from the
first application's output (the parameter block, wire, guards and new states
are all re-inserted; the script returns `True` again and signals no
"already patched" outcome). -/
theorem patch_not_idempotent_counterexample :
    modify_fsm_pure (modify_fsm_pure ex_fsm) ≠ modify_fsm_pure ex_fsm := by decide

/-- C2 (amended): the patch is re-applied in full on a second run — after
the first application the parameter and input anchors still match, the guard
plan is non-empty again, and the second output contains the first as a
sublist (everything is inserted again, nothing signals "already patched");
the only idempotency measure in the code is that the guard pass plans no
insertion for blocks whose labels are the two injected names. -/
theorem patch_reinserts_on_second_run :
    (searchM (mU mParam) (modify_fsm_pure ex_fsm)).isSome = true ∧
      (searchM (mU mInput) (modify_fsm_pure ex_fsm)).isSome = true ∧
      guard_plan (modify_fsm_pure ex_fsm) ≠ [] ∧
      (modify_fsm_pure ex_fsm).Sublist (modify_fsm_pure (modify_fsm_pure ex_fsm)) ∧
      guard_plan ex_injected_only = [] := by
  refine ⟨by decide, by decide, by decide, ?_, by decide⟩
  exact (((sublist_add_parameters _).trans (sublist_add_input_wire _)).trans
    (sublist_add_deadbeef_checks _)).trans (sublist_add_new_states _)

/-- C6 counterexample to the N+3 edit count as stated: an input containing
one state label inside a dispatch block but no parameter or input anchor
receives only 2 insertions, not 1 + 3. -/
theorem edit_count_counterexample :
    num_state_labels ex_no_anchors = 1 ∧
      modify_insert_count ex_no_anchors ≠ num_state_labels ex_no_anchors + 3 := by
  refine ⟨by decide, by decide⟩

/-- C6 (amended): with both anchors and a single closed dispatch block
present, the pipeline performs exactly N+3 insertions (N = 2 here); with
anchors missing, insertions are silently skipped (2 of 4 remain on the
anchor-free input). -/
theorem edit_count_with_all_anchors :
    modify_insert_count ex_fsm = num_state_labels ex_fsm + 3 ∧
      num_state_labels ex_fsm = 2 ∧
      modify_insert_count ex_no_anchors = 2 := by
  refine ⟨by decide, by decide, by decide⟩
